import Mathlib

/-!
Verification of the IXFR-create core of an authoritative DNS server
(src/ixfrcreate.c) and its generic hash table (src/hash.c).

The spool file is modelled as a list of byte values (`List Nat`); every
`fwrite`/`fread` of the C code becomes an explicit function on such lists.
Integers are serialized little-endian, fixing the host byte order of the
source as the spec recommends.  `fwrite(p, n, 1, f)` and `fread(p, n, 1, f)`
return 0 when `n = 0`, which the C code treats as an error; the model keeps
that behaviour (`fread_bytes`, `spool_dname`, `spool_atoms`).

External collaborators that are not part of the two source files
(the namedb zone walker, `dname_make`, `dname_compare`, and the
`ixfr_store` sink) are modelled from the spec; each such definition says so
in its doc comment.  A zone is represented by the list of domains its
walker yields, in walker order, each domain carrying its RR-set chain with
an `inzone` flag standing for the `rrset->zone == zone` test of the source.
-/

namespace NSD

def MAXDOMAINLEN : Nat := 255

def MAX_RDLENGTH : Nat := 65535

/-- Modelled from the spec: one structural field of an RR's rdata, either an
embedded domain name (stored by the source as a pointer into the domain
table; here as its uncompressed wire bytes) or an opaque length-prefixed
octet string (here the payload octets, without the leading length octet).
The constructor records the verdict of the external `rdata_atom_is_domain`
type table. -/
inductive Atom where
  | adomain (name : List Nat)
  | araw (data : List Nat)
deriving DecidableEq, Repr

def atomBytes : Atom → List Nat
  | .adomain n => n
  | .araw d => d

/-- One resource record of the in-memory zone: `rr_type` of namedb.h. -/
structure RR where
  type : Nat
  klass : Nat
  ttl : Nat
  rdatas : List Atom
deriving DecidableEq, Repr

/-- One RR-set on a domain's chain; `inzone` stands for the
`rrset->zone == zone` test of the source. -/
structure RRset where
  inzone : Bool
  rrs : List RR
deriving DecidableEq, Repr

/-- One domain of the in-memory zone, with its owner dname in uncompressed
wire format and its chain of RR-sets. -/
structure Domain where
  name : List Nat
  rrsets : List RRset
deriving DecidableEq, Repr

/-- Modelled from the spec: the in-memory zone as consumed by the core.
`domains` is the list the external walker (`zone->apex`, `domain_next`,
`domain_is_subdomain`) yields, in walker order. -/
structure Zone where
  apexName : List Nat
  domains : List Domain
deriving DecidableEq, Repr

/-! ## Byte-level primitives -/

/-- spool_u16: `fwrite(&val, sizeof(uint16_t), 1, out)`, little-endian;
the `uint16_t` parameter truncates the value to 16 bits. -/
def spool_u16 (v : Nat) : List Nat := [v % 256, v / 256 % 256]

/-- spool_u32: `fwrite(&val, sizeof(uint32_t), 1, out)`, little-endian. -/
def spool_u32 (v : Nat) : List Nat :=
  [v % 256, v / 256 % 256, v / 65536 % 256, v / 16777216 % 256]

/-- read_spool_u16: `fread(val, sizeof(uint16_t), 1, spool)`; fails on a
short read. -/
def read_spool_u16 : List Nat → Option (Nat × List Nat)
  | b0 :: b1 :: rest => some (b0 + 256 * b1, rest)
  | _ => none

/-- read_spool_u32: `fread(val, sizeof(uint32_t), 1, spool)`. -/
def read_spool_u32 : List Nat → Option (Nat × List Nat)
  | b0 :: b1 :: b2 :: b3 :: rest =>
    some (b0 + 256 * b1 + 65536 * b2 + 16777216 * b3, rest)
  | _ => none

/-- Model of `fread(buf, n, 1, f)`: fails on a short read, and also when
`n = 0` (C11: fread returns 0 when size is 0), which the callers treat as
an error. -/
def fread_bytes (n : Nat) (sp : List Nat) : Option (List Nat × List Nat) :=
  if n = 0 then none
  else if sp.length < n then none
  else some (sp.take n, sp.drop n)

/-! ## Spool writer (spool_* functions of ixfrcreate.c) -/

/-- spool_dname: `u16 name_size` then the wire-format name; the
`fwrite(name, namelen, 1, out)` fails when `namelen = 0`. -/
def spool_dname (name : List Nat) : Option (List Nat) :=
  if name.length = 0 then none
  else some (spool_u16 name.length ++ name)

/-- rr_rdatalen_uncompressed: sum over the atoms of the uncompressed size
(domain atom: the dname's `name_size`; opaque atom: its `data[0]` length). -/
def rr_rdatalen_uncompressed (rr : RR) : Nat :=
  (rr.rdatas.map (fun a => (atomBytes a).length)).sum

/-- The atom-writing loop of spool_rr_data: each `fwrite` of an atom's bytes
fails when the atom is empty (fwrite with size 0 returns 0). -/
def spool_atoms : List Atom → Option (List Nat)
  | [] => some []
  | a :: rest =>
    if (atomBytes a).isEmpty then none
    else
      match spool_atoms rest with
      | none => none
      | some bs => some (atomBytes a ++ bs)

/-- spool_rr_data: `u32 ttl`, `u16 rdlen`, then the uncompressed rdata. -/
def spool_rr_data (rr : RR) : Option (List Nat) :=
  match spool_atoms rr.rdatas with
  | none => none
  | some ab =>
    some (spool_u32 rr.ttl ++ spool_u16 (rr_rdatalen_uncompressed rr) ++ ab)

/-- The per-RR loop of spool_rrset. -/
def spool_rrs_data : List RR → Option (List Nat)
  | [] => some []
  | r :: rest =>
    match spool_rr_data r, spool_rrs_data rest with
    | some b, some bs => some (b ++ bs)
    | _, _ => none

/-- spool_rrset: nothing at all for an RR-set with `rr_count = 0`; otherwise
`u16 type`, `u16 class`, `u16 rr_count` (type and class taken from
`rrs[0]`), then the RR records. -/
def spool_rrset (s : RRset) : Option (List Nat) :=
  match s.rrs with
  | [] => some []
  | r0 :: _ =>
    match spool_rrs_data s.rrs with
    | none => none
    | some body =>
      some (spool_u16 r0.type ++ spool_u16 r0.klass ++
            spool_u16 s.rrs.length ++ body)

/-- spool_rrsets: skip RR-sets of other zones (`s->zone != zone`). -/
def spool_rrsets : List RRset → Option (List Nat)
  | [] => some []
  | s :: rest =>
    if s.inzone then
      match spool_rrset s, spool_rrsets rest with
      | some b, some bs => some (b ++ bs)
      | _, _ => none
    else spool_rrsets rest

/-- domain_count_rrsets: number of RR-sets of this domain belonging to the
zone (their RR counts do not matter). -/
def domain_count_rrsets (d : Domain) : Nat :=
  (d.rrsets.filter (fun s => s.inzone)).length

/-- The domain loop of spool_domains: domains with no in-zone RR-set are
skipped; otherwise the owner dname, `u32 rrset_count` and the RR-sets. -/
def spool_domains_loop : List Domain → Option (List Nat)
  | [] => some []
  | d :: ds =>
    if domain_count_rrsets d = 0 then spool_domains_loop ds
    else
      match spool_dname d.name, spool_rrsets d.rrsets, spool_domains_loop ds with
      | some nb, some rb, some rest =>
        some (nb ++ spool_u32 (domain_count_rrsets d) ++ rb ++ rest)
      | _, _, _ => none

/-- spool_domains: the domain blocks followed by the `u16 0` end delimiter. -/
def spool_domains (z : Zone) : Option (List Nat) :=
  match spool_domains_loop z.domains with
  | none => none
  | some b => some (b ++ spool_u16 0)

/-- spool_zone_to_file: apex dname, `u32 serial`, then the domains. -/
def spool_zone_to_file (z : Zone) (serial : Nat) : Option (List Nat) :=
  match spool_dname z.apexName with
  | none => none
  | some ab =>
    match spool_domains z with
    | none => none
    | some db => some (ab ++ spool_u32 serial ++ db)

/-! ## Spool readers -/

/-- read_spool_dname: `u16` length, reject `len > buflen`, then the name
octets (a zero length reads no octets and yields the empty name). -/
def read_spool_dname (buflen : Nat) (sp : List Nat) :
    Option (List Nat × List Nat) :=
  match read_spool_u16 sp with
  | none => none
  | some (len, sp1) =>
    if buflen < len then none
    else if 0 < len then
      match fread_bytes len sp1 with
      | none => none
      | some (nm, sp2) => some (nm, sp2)
    else some ([], sp1)

/-- The IXFR creation context (struct ixfr_create): apex name bytes and the
serial recorded at spool time. -/
structure IxfrCreate where
  zone_name : List Nat
  old_serial : Nat
deriving DecidableEq, Repr

/-- read_spool_header: read the apex dname (into a buffer of
`MAXDOMAINLEN+1` octets) and the `u32 serial`, then check both against the
context; `zone_name_len != dname_len || memcmp(...) != 0` is inequality of
the byte lists.  Returns the remaining spool on success. -/
def read_spool_header (sp : List Nat) (ixfrcr : IxfrCreate) :
    Option (List Nat) :=
  match read_spool_dname (MAXDOMAINLEN + 1) sp with
  | none => none
  | some (dn, sp1) =>
    match read_spool_u32 sp1 with
    | none => none
    | some (serial, sp2) =>
      if ixfrcr.zone_name ≠ dn then none
      else if ixfrcr.old_serial ≠ serial then none
      else some sp2

/-! ## External collaborators of the diff engine, modelled from the spec -/

/-- Lowercasing of one octet, for canonical dname comparison. -/
def lower_octet (b : Nat) : Nat := if 65 ≤ b ∧ b ≤ 90 then b + 32 else b

/-- Modelled from the spec: the label structure of a wire dname — a sequence
of labels of 1..63 octets ending in the zero-length root label.  Used by
the model of the external `dname_make`. -/
def wireLabels : List Nat → Option (List (List Nat))
  | [] => none
  | 0 :: rest => if rest.isEmpty then some [] else none
  | n :: rest =>
    if n ≤ 63 ∧ n ≤ rest.length then
      match wireLabels (rest.drop n) with
      | none => none
      | some ls => some (rest.take n :: ls)
    else none
termination_by l => l.length
decreasing_by simp; omega

/-- Modelled from the spec: `dname_make` (dname.c, not in src) — parse and
validate the wire name read from the spool, failing on malformed labels or
a name longer than `MAXDOMAINLEN`. -/
def dname_make (bytes : List Nat) : Option (List Nat) :=
  match wireLabels bytes with
  | none => none
  | some _ => if bytes.length ≤ MAXDOMAINLEN then some bytes else none

/-- The label list of a wire name, lowercased, root label first
(right-to-left), as canonical dname comparison orders it. -/
def dname_labels (b : List Nat) : List (List Nat) :=
  (((wireLabels b).getD []).map (fun l => l.map lower_octet)).reverse

def cmpNat (a b : Nat) : Ordering :=
  if a < b then .lt else if b < a then .gt else .eq

def cmpList {α : Type} (c : α → α → Ordering) : List α → List α → Ordering
  | [], [] => .eq
  | [], _ :: _ => .lt
  | _ :: _, [] => .gt
  | a :: as, b :: bs =>
    match c a b with
    | .eq => cmpList c as bs
    | o => o

/-- Modelled from the spec: `dname_compare` (dname.c, not in src) — RFC 4034
canonical ordering: label by label from the root, each label compared
lowercase-octet-wise. -/
def dname_compare (a b : List Nat) : Ordering :=
  cmpList (cmpList cmpNat) (dname_labels a) (dname_labels b)

/-- An RR as the store sink sees it: owner wire name, type, class, ttl,
uncompressed rdata octets. -/
abbrev SpoolRR := List Nat × Nat × Nat × Nat × List Nat

/-- Uncompressed wire bytes of a structured rdata. -/
def rdatas_wire (l : List Atom) : List Nat := (l.map atomBytes).flatten

/-- Modelled from the spec: the `ixfr_store` sink (ixfr.c, not in src)
accumulates the delete and add streams; allocation is assumed to succeed. -/
structure Store where
  dels : List SpoolRR
  adds : List SpoolRR
deriving DecidableEq, Repr

def emptyStore : Store := ⟨[], []⟩

/-- Modelled from the spec: `ixfr_store_delrr_uncompressed` records one
deletion given the owner bytes and the raw uncompressed rdata. -/
def ixfr_store_delrr_uncompressed (st : Store) (owner : List Nat)
    (tp kl ttl : Nat) (rdata : List Nat) : Store :=
  { st with dels := st.dels ++ [(owner, tp, kl, ttl, rdata)] }

/-- Modelled from the spec: `ixfr_store_addrr_rdatas` records one addition
given the owner dname and the structured rdatas. -/
def ixfr_store_addrr_rdatas (st : Store) (owner : List Nat)
    (tp kl ttl : Nat) (rdatas : List Atom) : Store :=
  { st with adds := st.adds ++ [(owner, tp, kl, ttl, rdatas_wire rdatas)] }

/-- Modelled from the spec: what becomes of the store session;
`ixfr_store_free` destroys the session without committing it. -/
inductive StoreFate where
  | notStarted
  | destroyed
  | committed
deriving DecidableEq, Repr

/-- rrset_rrtype: the type of `rrs[0]`. -/
def rrset_rrtype (s : RRset) : Nat :=
  match s.rrs with
  | [] => 0
  | r :: _ => r.type

/-- Modelled from the spec: `domain_find_rrset` (namedb, not in src) — the
first RR-set on the domain's chain belonging to the zone and of the given
type. -/
def domain_find_rrset (d : Domain) (tp : Nat) : Option RRset :=
  d.rrsets.find? (fun s => s.inzone && rrset_rrtype s == tp)

/-! ## The diff engine (process_* functions of ixfrcreate.c) -/

/-- The atom loop of rdata_match, tracking `rdpos` and checking bounds
before each memcmp. -/
def rdata_match_loop (rdata : List Nat) (rdlen : Nat) :
    List Atom → Nat → Bool
  | [], rdpos => rdpos == rdlen
  | a :: rest, rdpos =>
    if rdlen < rdpos + (atomBytes a).length then false
    else if (rdata.drop rdpos).take (atomBytes a).length ≠ atomBytes a then false
    else rdata_match_loop rdata rdlen rest (rdpos + (atomBytes a).length)

/-- rdata_match: true when the spool rdata equals the RR's uncompressed
rdata, atom by atom, consuming the whole buffer. -/
def rdata_match (rr : RR) (rdata : List Nat) (rdlen : Nat) : Bool :=
  rdata_match_loop rdata rdlen rr.rdatas 0

/-- The RR loop of rrset_find_rdata, skipping ttl mismatches. -/
def rrset_find_loop (ttl : Nat) (rdata : List Nat) (rdlen : Nat) :
    List RR → Nat → Option Nat
  | [], _ => none
  | r :: rest, i =>
    if r.ttl ≠ ttl then rrset_find_loop ttl rdata rdlen rest (i + 1)
    else if rdata_match r rdata rdlen then some i
    else rrset_find_loop ttl rdata rdlen rest (i + 1)

/-- rrset_find_rdata: the first index in the RR-set with this ttl and
bytewise-equal uncompressed rdata. -/
def rrset_find_rdata (s : RRset) (ttl : Nat) (rdata : List Nat)
    (rdlen : Nat) : Option Nat :=
  rrset_find_loop ttl rdata rdlen s.rrs 0

/-- The spool-side loop of process_diff_rrset: read each spool RR, mark the
matched new-side index, else emit a deletion. -/
def process_diff_rrset_dels (d : Domain) (tp kl : Nat) (rrset : RRset) :
    Nat → List Nat → Store → List Nat → Option (List Nat × Store × List Nat)
  | 0, sp, store, marked => some (marked, store, sp)
  | n + 1, sp, store, marked =>
    match read_spool_u32 sp with
    | none => none
    | some (ttl, sp1) =>
      match read_spool_u16 sp1 with
      | none => none
      | some (rdlen, sp2) =>
        match fread_bytes rdlen sp2 with
        | none => none
        | some (buf, sp3) =>
          match rrset_find_rdata rrset ttl buf rdlen with
          | some idx =>
            process_diff_rrset_dels d tp kl rrset n sp3 store (marked ++ [idx])
          | none =>
            process_diff_rrset_dels d tp kl rrset n sp3
              (ixfr_store_delrr_uncompressed store d.name tp kl ttl buf) marked

/-- The new-side loop of process_diff_rrset: any index not in the marked
list is an added RR. -/
def process_diff_rrset_adds (d : Domain) (marked : List Nat) :
    List RR → Nat → Store → Store
  | [], _, store => store
  | r :: rest, i, store =>
    if marked.contains i then process_diff_rrset_adds d marked rest (i + 1) store
    else
      process_diff_rrset_adds d marked rest (i + 1)
        (ixfr_store_addrr_rdatas store d.name r.type r.klass r.ttl r.rdatas)

/-- process_diff_rrset: RR-level diff of one RR-set present in both the
spool and the new zone. -/
def process_diff_rrset (sp : List Nat) (d : Domain) (tp kl rrcount : Nat)
    (rrset : RRset) (store : Store) : Option (Store × List Nat) :=
  match process_diff_rrset_dels d tp kl rrset rrcount sp store [] with
  | none => none
  | some (marked, store1, sp1) =>
    some (process_diff_rrset_adds d marked rrset.rrs 0 store1, sp1)

/-- process_spool_delrrset: read `rrcount` spool RRs and emit each as a
deletion at the given owner. -/
def process_spool_delrrset (dname : List Nat) (tp kl : Nat) :
    Nat → List Nat → Store → Option (Store × List Nat)
  | 0, sp, store => some (store, sp)
  | n + 1, sp, store =>
    match read_spool_u32 sp with
    | none => none
    | some (ttl, sp1) =>
      match read_spool_u16 sp1 with
      | none => none
      | some (rdlen, sp2) =>
        match fread_bytes rdlen sp2 with
        | none => none
        | some (buf, sp3) =>
          process_spool_delrrset dname tp kl n sp3
            (ixfr_store_delrr_uncompressed store dname tp kl ttl buf)

/-- process_add_rrset: stream-add every RR of the RR-set. -/
def process_add_rrset (store : Store) (d : Domain) : List RR → Store
  | [] => store
  | r :: rest =>
    process_add_rrset
      (ixfr_store_addrr_rdatas store d.name r.type r.klass r.ttl r.rdatas) d rest

/-- process_marktypes: add every in-zone RR-set of the domain whose type is
not in the marktypes list. -/
def process_marktypes (store : Store) (d : Domain) (marktypes : List Nat) :
    List RRset → Store
  | [] => store
  | s :: rest =>
    if s.inzone then
      if marktypes.contains (rrset_rrtype s) then
        process_marktypes store d marktypes rest
      else process_marktypes (process_add_rrset store d s.rrs) d marktypes rest
    else process_marktypes store d marktypes rest

/-- The RR-set loop of process_diff_domain: per spool RR-set, either a
whole-set deletion (type absent from the new zone) or an RR-level diff,
recording the type in marktypes. -/
def process_diff_domain_loop (d : Domain) :
    Nat → List Nat → Store → List Nat → Option (List Nat × Store × List Nat)
  | 0, sp, store, marktypes => some (marktypes, store, sp)
  | n + 1, sp, store, marktypes =>
    match read_spool_u16 sp with
    | none => none
    | some (tp, sp1) =>
      match read_spool_u16 sp1 with
      | none => none
      | some (kl, sp2) =>
        match read_spool_u16 sp2 with
        | none => none
        | some (rrcount, sp3) =>
          match domain_find_rrset d tp with
          | none =>
            match process_spool_delrrset d.name tp kl rrcount sp3 store with
            | none => none
            | some (store1, sp4) =>
              process_diff_domain_loop d n sp4 store1 marktypes
          | some rrset =>
            match process_diff_rrset sp3 d tp kl rrcount rrset store with
            | none => none
            | some (store1, sp4) =>
              process_diff_domain_loop d n sp4 store1 (marktypes ++ [tp])

/-- process_diff_domain: read the spool's `u32 rrset_count`, diff each
spool RR-set, then add the unmarked new-zone RR-sets. -/
def process_diff_domain (sp : List Nat) (d : Domain) (store : Store) :
    Option (Store × List Nat) :=
  match read_spool_u32 sp with
  | none => none
  | some (cnt, sp1) =>
    match process_diff_domain_loop d cnt sp1 store [] with
    | none => none
    | some (marktypes, store1, sp2) =>
      some (process_marktypes store1 d marktypes d.rrsets, sp2)

/-- process_domain_add_RRs: add every in-zone RR-set of the domain. -/
def process_domain_add_RRs (store : Store) (d : Domain) : List RRset → Store
  | [] => store
  | s :: rest =>
    if s.inzone then
      process_domain_add_RRs (process_add_rrset store d s.rrs) d rest
    else process_domain_add_RRs store d rest

/-- The RR-set loop of process_domain_del_RRs. -/
def process_domain_del_RRs_loop (dname : List Nat) :
    Nat → List Nat → Store → Option (Store × List Nat)
  | 0, sp, store => some (store, sp)
  | n + 1, sp, store =>
    match read_spool_u16 sp with
    | none => none
    | some (tp, sp1) =>
      match read_spool_u16 sp1 with
      | none => none
      | some (kl, sp2) =>
        match read_spool_u16 sp2 with
        | none => none
        | some (rrcount, sp3) =>
          match process_spool_delrrset dname tp kl rrcount sp3 store with
          | none => none
          | some (store1, sp4) =>
            process_domain_del_RRs_loop dname n sp4 store1

/-- process_domain_del_RRs: read the owner's `u32 rrset_count` and delete
every spool RR below it. -/
def process_domain_del_RRs (store : Store) (sp : List Nat)
    (dname : List Nat) : Option (Store × List Nat) :=
  match read_spool_u32 sp with
  | none => none
  | some (cnt, sp1) => process_domain_del_RRs_loop dname cnt sp1 store

/-! ## The spool dname iterator -/

/-- struct spool_dname_iterator: the buffered owner name (`dname` of
`dname_len` octets; here the list of exactly the octets read), and the
`read_first`, `eof`, `is_processed` state bits. -/
structure SpoolIter where
  dname : List Nat
  read_first : Bool
  eof : Bool
  is_processed : Bool
deriving DecidableEq, Repr

/-- spool_dname_iter_init: all state cleared. -/
def spool_dname_iter_init : SpoolIter := ⟨[], false, false, false⟩

/-- spool_dname_iter_read: read one length-prefixed dname into the buffer
(buffer size `MAXDOMAINLEN+1`). -/
def spool_dname_iter_read (iter : SpoolIter) (sp : List Nat) :
    Option (SpoolIter × List Nat) :=
  match read_spool_dname (MAXDOMAINLEN + 1) sp with
  | none => none
  | some (nm, sp1) => some ({ iter with dname := nm }, sp1)

/-- spool_dname_iter_next: success immediately at EOF; read the first name
if none was read yet (a zero length sets `eof`); return the buffered name
while it is unprocessed; otherwise read the next name. -/
def spool_dname_iter_next (iter : SpoolIter) (sp : List Nat) :
    Option (SpoolIter × List Nat) :=
  if iter.eof then some (iter, sp)
  else if ¬iter.read_first then
    match spool_dname_iter_read iter sp with
    | none => none
    | some (it1, sp1) =>
      some ({ it1 with eof := it1.dname.isEmpty, read_first := true, is_processed := false }, sp1)
  else if ¬iter.is_processed then some (iter, sp)
  else
    match spool_dname_iter_read iter sp with
    | none => none
    | some (it1, sp1) =>
      some ({ it1 with eof := it1.dname.isEmpty, is_processed := false }, sp1)

/-! ## The coordinated walk -/

/-- The catch-up loop (process_spool_before_domain): while the buffered
spool owner compares canonically below the new-zone domain, it only exists
in the old zone — delete its RRs and mark it processed.  `fuel` bounds the
loop; every continuing iteration consumes spool bytes, so
`sp.length + 1` fuel is always enough. -/
def process_spool_before_domain (d : Domain) :
    Nat → List Nat → SpoolIter → Store →
    Option (SpoolIter × Store × List Nat)
  | 0, _, _, _ => none
  | fuel + 1, sp, iter, store =>
    if iter.eof then some (iter, store, sp)
    else
      match spool_dname_iter_next iter sp with
      | none => none
      | some (it1, sp1) =>
        if it1.eof then some (it1, store, sp1)
        else
          match dname_make it1.dname with
          | none => none
          | some dn =>
            if dname_compare dn d.name = .lt then
              match process_domain_del_RRs store sp1 it1.dname with
              | none => none
              | some (store1, sp2) =>
                process_spool_before_domain d fuel sp2
                  { it1 with is_processed := true } store1
            else some (it1, store, sp1)

/-- process_spool_for_domain: catch up the spool below the domain; at spool
EOF return success immediately; if the buffered owner differs bytewise the
domain is new — add its RRs; else run the per-owner diff and mark the
owner processed. -/
def process_spool_for_domain (fuel : Nat) (sp : List Nat) (d : Domain)
    (iter : SpoolIter) (store : Store) :
    Option (SpoolIter × Store × List Nat) :=
  match process_spool_before_domain d fuel sp iter store with
  | none => none
  | some (it1, store1, sp1) =>
    if it1.eof then some (it1, store1, sp1)
    else if it1.dname ≠ d.name then
      some (it1, process_domain_add_RRs store1 d d.rrsets, sp1)
    else
      match process_diff_domain sp1 d store1 with
      | none => none
      | some (store2, sp2) =>
        some ({ it1 with is_processed := true }, store2, sp2)

/-- process_spool_remaining: every owner still on the spool after the last
new-zone domain is deleted in full. -/
def process_spool_remaining :
    Nat → List Nat → SpoolIter → Store → Option (Store × List Nat)
  | 0, _, _, _ => none
  | fuel + 1, sp, iter, store =>
    if iter.eof then some (store, sp)
    else
      match spool_dname_iter_next iter sp with
      | none => none
      | some (it1, sp1) =>
        if it1.eof then some (store, sp1)
        else
          match process_domain_del_RRs store sp1 it1.dname with
          | none => none
          | some (store1, sp2) =>
            process_spool_remaining fuel sp2
              { it1 with is_processed := true } store1

/-- The domain loop of ixfr_create_walk_zone: domains without in-zone
RR-sets are skipped. -/
def walk_loop : List Domain → SpoolIter → Store → List Nat →
    Option (SpoolIter × Store × List Nat)
  | [], iter, store, sp => some (iter, store, sp)
  | d :: ds, iter, store, sp =>
    if domain_count_rrsets d = 0 then walk_loop ds iter store sp
    else
      match process_spool_for_domain (sp.length + 1) sp d iter store with
      | none => none
      | some (it1, store1, sp1) => walk_loop ds it1 store1 sp1

/-- ixfr_create_walk_zone: walk the new zone against the spool (whose
header was already consumed) and emit the diff. -/
def ixfr_create_walk_zone (sp : List Nat) (z : Zone) :
    Option (Store × List Nat) :=
  match walk_loop z.domains spool_dname_iter_init emptyStore sp with
  | none => none
  | some (it1, store1, sp1) =>
    match process_spool_remaining (sp1.length + 1) sp1 it1 store1 with
    | none => none
    | some (store2, sp2) => some (store2, sp2)

/-- Result of ixfr_create_perform: the boolean outcome, what became of the
store session, and the session contents at the time it was freed. -/
structure PerformResult where
  ok : Bool
  fate : StoreFate
  store : Option Store
deriving DecidableEq, Repr

/-- ixfr_create_perform: check the spool header against the context, then
walk; on header failure the store session was never started; on walk
failure the session is freed (destroyed); on success the source also frees
the session after the walk. -/
def ixfr_create_perform (ixfrcr : IxfrCreate) (sp : List Nat) (z : Zone) :
    PerformResult :=
  match read_spool_header sp ixfrcr with
  | none => ⟨false, .notStarted, none⟩
  | some sp1 =>
    match ixfr_create_walk_zone sp1 z with
    | none => ⟨false, .destroyed, none⟩
    | some (store, _) => ⟨true, .destroyed, some store⟩

/-! ## The generic hash table (hash.c)

A bucket is the list of its occupied nodes: the embedded head node is the
first element (a head with `key == NULL` is the empty list — per the
invariant an empty head has no chain), and the separately allocated chain
links follow.  `cmp` and `hash` are the caller-supplied comparison and
hash functions stored in the table; allocation is assumed to succeed
(`mallocf` failure paths are not modelled). -/

structure Hash (K V : Type) where
  size : Nat
  table : List (List (K × V))
  count : Nat
  collisions : Nat
  cmp : K → K → Int
  hash : K → Nat

/-- hash_create: reject `size = 0` with EINVAL; otherwise all buckets
empty, `count = collisions = 0`. -/
def hash_create {K V : Type} (cmpf : K → K → Int) (hashf : K → Nat)
    (size : Nat) : Option (Hash K V) :=
  if size = 0 then none
  else some ⟨size, List.replicate size [], 0, 0, cmpf, hashf⟩

/-- The chain scan of hash_insert: the first argument is the current node,
the second its successor chain.  The C loop runs `while (node->next)`, so
a node with no successor is never compared and the loop appends a fresh
node after it; on a duplicate key with `overwrite` it writes the new pair
through `node->next` (the successor) and keeps scanning from there.
`none` is the duplicate-found NULL return of the non-overwrite case. -/
def insertChain {K V : Type} (cmp : K → K → Int) (key : K) (data : V)
    (overwrite : Bool) : (K × V) → List (K × V) → Option (List (K × V))
  | n, [] => some [n, (key, data)]
  | n, s :: rest =>
    if cmp key n.1 = 0 then
      if overwrite then
        match insertChain cmp key data overwrite (key, data) rest with
        | none => none
        | some l => some (n :: l)
      else none
    else
      match insertChain cmp key data overwrite s rest with
      | none => none
      | some l => some (n :: l)

/-- hash_insert: occupy an empty bucket head (bumping `count` only), else
scan the chain; a completed scan appends a node and bumps both `count` and
`collisions`.  The first component is the returned node pointer
(`none` for the C NULL). -/
def hash_insert {K V : Type} (h : Hash K V) (key : K) (data : V)
    (overwrite : Bool) : Option Unit × Hash K V :=
  let idx := h.hash key % h.size
  match h.table.getD idx [] with
  | [] =>
    (some (), { h with table := h.table.set idx [(key, data)], count := h.count + 1 })
  | n :: rest =>
    match insertChain h.cmp key data overwrite n rest with
    | none => (none, h)
    | some nb =>
      (some (), { h with table := h.table.set idx nb, count := h.count + 1, collisions := h.collisions + 1 })

/-- The bucket walk of hash_search: an empty head terminates early; the
first key-equal node's value is returned. -/
def searchChain {K V : Type} (cmp : K → K → Int) (key : K) :
    List (K × V) → Option V
  | [] => none
  | n :: rest => if cmp key n.1 = 0 then some n.2 else searchChain cmp key rest

/-- hash_search: walk the bucket of the key's hash. -/
def hash_search {K V : Type} (h : Hash K V) (key : K) : Option V :=
  searchChain h.cmp key (h.table.getD (h.hash key % h.size) [])

/-- The ascending bucket scan shared by hash_first and hash_next: the first
bucket at or after `i` whose head key is not NULL; the cursor lands on its
head.  A cursor is the pair (bucket index, chain index), standing for the
`_i` and `_node` fields embedded in the table. -/
def scanFrom {K V : Type} (h : Hash K V) (i : Nat) : Option (Nat × Nat) :=
  if _hlt : i < h.size then
    match h.table.getD i [] with
    | [] => scanFrom h (i + 1)
    | _ :: _ => some (i, 0)
  else none
termination_by h.size - i
decreasing_by omega

/-- hash_first: scan the buckets from 0. -/
def hash_first {K V : Type} (h : Hash K V) : Option (Nat × Nat) :=
  scanFrom h 0

/-- hash_next: follow `_node->next` inside the chain, else resume the
bucket scan at `_i + 1`. -/
def hash_next {K V : Type} (h : Hash K V) (c : Nat × Nat) :
    Option (Nat × Nat) :=
  if c.2 + 1 < (h.table.getD c.1 []).length then some (c.1, c.2 + 1)
  else scanFrom h (c.1 + 1)

/-- The first/next iteration protocol: the sequence of node positions
visited from a starting cursor, with fuel bounding the number of steps. -/
def iterGo {K V : Type} (h : Hash K V) : Nat → Option (Nat × Nat) → List (Nat × Nat)
  | 0, _ => []
  | _, none => []
  | fuel + 1, some c => c :: iterGo h fuel (hash_next h c)

/-- Every occupied node position of the table, buckets in ascending order,
each bucket's head first then its chain. -/
def allPositions {K V : Type} (h : Hash K V) : List (Nat × Nat) :=
  (List.range h.size).flatMap
    (fun i => (List.range (h.table.getD i []).length).map (fun j => (i, j)))

/-! ## Reference forms of the spool output and the zone's RR content -/

/-- The bytes spool_rr_data emits for one RR, as a total function. -/
def rr_data_bytes (rr : RR) : List Nat :=
  spool_u32 rr.ttl ++ spool_u16 (rr_rdatalen_uncompressed rr) ++
    rdatas_wire rr.rdatas

/-- The RR-set block of the spool grammar: `u16 type`, `u16 class`,
`u16 rr_count`, then the RR records; nothing for an empty RR-set. -/
def rrset_block_bytes (s : RRset) : List Nat :=
  match s.rrs with
  | [] => []
  | r0 :: _ =>
    spool_u16 r0.type ++ spool_u16 r0.klass ++ spool_u16 s.rrs.length ++
      (s.rrs.map rr_data_bytes).flatten

/-- Every RR belonging to the zone as an
(owner, type, class, ttl, uncompressed rdata) tuple, in the order the
writer emits them: walker order of domains, chain order of in-zone
RR-sets, RR order within each set. -/
def zone_rr_tuples (z : Zone) : List SpoolRR :=
  z.domains.flatMap (fun d =>
    (d.rrsets.filter (fun s => s.inzone)).flatMap (fun s =>
      s.rrs.map (fun r =>
        (d.name, r.type, r.klass, r.ttl, rdatas_wire r.rdatas))))

/-! ## A whole-spool reader composed from the source's read primitives

The source has no single read-back function: the header is consumed by
read_spool_header and the rest by the diff walk (spool_dname_iter_read,
process_diff_domain, process_spool_delrrset).  The following reader
performs exactly the same sequence of reads on a spool, without diffing,
collecting the (owner, type, class, ttl, rdata) tuples in read order. -/

/-- One RR record as the diff functions read it: `u32 ttl`, `u16 rdlen`,
then `fread(buf, rdlen, 1, spool)`. -/
def read_spool_rrdata (sp : List Nat) : Option ((Nat × List Nat) × List Nat) :=
  match read_spool_u32 sp with
  | none => none
  | some (ttl, sp1) =>
    match read_spool_u16 sp1 with
    | none => none
    | some (rdlen, sp2) =>
      match fread_bytes rdlen sp2 with
      | none => none
      | some (buf, sp3) => some ((ttl, buf), sp3)

/-- `n` RR records in sequence. -/
def read_spool_rrs : Nat → List Nat → Option (List (Nat × List Nat) × List Nat)
  | 0, sp => some ([], sp)
  | n + 1, sp =>
    match read_spool_rrdata sp with
    | none => none
    | some (r, sp1) =>
      match read_spool_rrs n sp1 with
      | none => none
      | some (rs, sp2) => some (r :: rs, sp2)

/-- One RR-set block: `u16 type`, `u16 class`, `u16 rr_count`, then the
RR records. -/
def read_spool_block (sp : List Nat) :
    Option ((Nat × Nat × List (Nat × List Nat)) × List Nat) :=
  match read_spool_u16 sp with
  | none => none
  | some (tp, sp1) =>
    match read_spool_u16 sp1 with
    | none => none
    | some (kl, sp2) =>
      match read_spool_u16 sp2 with
      | none => none
      | some (cnt, sp3) =>
        match read_spool_rrs cnt sp3 with
        | none => none
        | some (rs, sp4) => some ((tp, kl, rs), sp4)

/-- `n` RR-set blocks in sequence. -/
def read_spool_blocks :
    Nat → List Nat → Option (List (Nat × Nat × List (Nat × List Nat)) × List Nat)
  | 0, sp => some ([], sp)
  | n + 1, sp =>
    match read_spool_block sp with
    | none => none
    | some (b, sp1) =>
      match read_spool_blocks n sp1 with
      | none => none
      | some (bs, sp2) => some (b :: bs, sp2)

/-- The owner loop: one length-prefixed dname at a time (buffer of
`MAXDOMAINLEN+1` octets), a zero length signalling the end; per owner a
`u32 rrset_count` and that many blocks.  `fuel` bounds the loop. -/
def read_spool_owners :
    Nat → List Nat → Option (List SpoolRR × List Nat)
  | 0, _ => none
  | fuel + 1, sp =>
    match read_spool_dname (MAXDOMAINLEN + 1) sp with
    | none => none
    | some (nm, sp1) =>
      if nm.isEmpty then some ([], sp1)
      else
        match read_spool_u32 sp1 with
        | none => none
        | some (cnt, sp2) =>
          match read_spool_blocks cnt sp2 with
          | none => none
          | some (bs, sp3) =>
            match read_spool_owners fuel sp3 with
            | none => none
            | some (ts, sp4) =>
              some ((bs.flatMap (fun b =>
                b.2.2.map (fun r => (nm, b.1, b.2.1, r.1, r.2)))) ++ ts, sp4)

/-- Read a whole spool back: apex dname, `u32 serial`, then the owners. -/
def read_spool_zone (sp : List Nat) :
    Option (List Nat × Nat × List SpoolRR × List Nat) :=
  match read_spool_dname (MAXDOMAINLEN + 1) sp with
  | none => none
  | some (apex, sp1) =>
    match read_spool_u32 sp1 with
    | none => none
    | some (serial, sp2) =>
      match read_spool_owners (sp.length + 1) sp2 with
      | none => none
      | some (ts, sp3) => some (apex, serial, ts, sp3)

/-! ## Well-formedness of a zone as the data model describes it -/

def rrset_klass (s : RRset) : Nat :=
  match s.rrs with
  | [] => 0
  | r :: _ => r.klass

/-- A data-model RR-set: nonempty (an RR-set is the set of RRs at an
owner), a single (type, class) shared by its RRs, 16-bit counts and
rdata length, 32-bit ttl, and at least one octet in every rdata atom. -/
def rrset_wf (s : RRset) : Prop :=
  s.rrs ≠ [] ∧ s.rrs.length < 65536 ∧
  ∀ r ∈ s.rrs, r.type = rrset_rrtype s ∧ r.klass = rrset_klass s ∧
    r.type < 65536 ∧ r.klass < 65536 ∧ r.ttl < 4294967296 ∧
    rr_rdatalen_uncompressed r < 65536 ∧ r.rdatas ≠ [] ∧
    ∀ a ∈ r.rdatas, atomBytes a ≠ []

def domain_wf (d : Domain) : Prop :=
  d.name ≠ [] ∧ d.name.length ≤ MAXDOMAINLEN ∧
  domain_count_rrsets d < 4294967296 ∧
  ∀ s ∈ d.rrsets, s.inzone = true → rrset_wf s

/-- Well-formedness of a zone and serial for spooling. -/
def spool_wf (z : Zone) (serial : Nat) : Prop :=
  z.apexName ≠ [] ∧ z.apexName.length ≤ MAXDOMAINLEN ∧
  serial < 4294967296 ∧ ∀ d ∈ z.domains, domain_wf d

/-! ## Concrete instances used by the claim theorems -/

/-- An old zone whose apex carries no in-zone RR-set: its spool is just the
header and the end delimiter. -/
def exOldZone : Zone := ⟨[0], [⟨[0], []⟩]⟩

/-- A new zone with one domain carrying one in-zone RR
(type 6, class 1, ttl 1, rdata 0x09). -/
def exNewZone : Zone := ⟨[0], [⟨[0], [⟨true, [⟨6, 1, 1, [.araw [9]]⟩]⟩]⟩]⟩

def cmp_sub (a b : Nat) : Int := (a : Int) - (b : Int)

def hash_zero (_ : Nat) : Nat := 0

/-- A one-bucket table as hash_create makes it. -/
def exT0 : Hash Nat Nat := ⟨1, [[]], 0, 0, cmp_sub, hash_zero⟩

/-- exT0 after inserting key 5 with value 10. -/
def exT1 : Hash Nat Nat := (hash_insert exT0 5 10 false).2

/-- exT1 after inserting key 7 with value 20 (a chain of two nodes). -/
def exT2 : Hash Nat Nat := (hash_insert exT1 7 20 false).2

/-- A domain whose only in-zone RR-set has zero RRs. -/
def exDom6 : Domain := ⟨[1, 97, 0], [⟨true, []⟩]⟩

def exZone6 : Zone := ⟨[1, 97, 0], [exDom6]⟩

/-- A spool whose trailing (post-walk) owner has a 256-octet name and an
RR-set count of zero: header for apex `[0]` serial 1, the owner, the end
delimiter. -/
def exSpool7 : List Nat :=
  [1, 0, 0] ++ [1, 0, 0, 0] ++ ([0, 1] ++ List.replicate 256 65) ++
    [0, 0, 0, 0] ++ [0, 0]

/-- A three-bucket table holding three nodes: a lone head, an empty bucket,
and a head with one chain link. -/
def exH : Hash Nat Nat := ⟨3, [[(1, 10)], [], [(2, 20), (3, 30)]], 3, 0, cmp_sub, hash_zero⟩

/-! ## Claim theorems -/

/-- Claim C1, evaluated at a failing input.  The early
`if(iter->eof) return 1;` of process_spool_for_domain skips the
added-domain branch once the spool is exhausted, so new-zone content after
the last spool owner is never emitted as additions: with an old zone that
spools to header plus end delimiter and a new zone holding one RR, the
walk emits no operation at all, although the claim requires
(old minus deletes) union adds to equal new — here old, deletes and adds
are all empty while new is not. -/
theorem walk_zone_eof_drops_additions :
    spool_zone_to_file exOldZone 1 = some [1, 0, 0, 1, 0, 0, 0, 0, 0] ∧
    ixfr_create_walk_zone [0, 0] exNewZone = some (emptyStore, []) ∧
    zone_rr_tuples exOldZone = [] ∧
    zone_rr_tuples exNewZone = [([0], 6, 1, 1, [9])] ∧
    (zone_rr_tuples exNewZone : Multiset SpoolRR) ≠
      (zone_rr_tuples exOldZone : Multiset SpoolRR) := by
  refine ⟨rfl, rfl, rfl, rfl, by decide⟩

/-- Claim C3, evaluated at a failing input.  On the table holding keys 5
and 7 in one bucket, inserting key 5 again with overwrite: the C loop
writes the new pair through `node->next` (clobbering the node of key 7),
keeps scanning, and appends a fresh node; count and collisions both grow
and a subsequent search still returns the old value 10, while the claim
demands an in-place update of the matched node with count and collisions
unchanged and search returning 99. -/
theorem hash_insert_overwrite_clobbers_successor :
    hash_create cmp_sub hash_zero 1 = some exT0 ∧
    exT2.table = [[(5, 10), (7, 20)]] ∧ exT2.count = 2 ∧ exT2.collisions = 1 ∧
    (hash_insert exT2 5 99 true).2.table = [[(5, 10), (5, 99), (5, 99)]] ∧
    (hash_insert exT2 5 99 true).2.count = 3 ∧
    (hash_insert exT2 5 99 true).2.collisions = 2 ∧
    hash_search (hash_insert exT2 5 99 true).2 5 = some 10 := by
  refine ⟨rfl, rfl, rfl, rfl, rfl, rfl, rfl, rfl⟩

/-- Claim C4, evaluated at a failing input.  The chain scan runs
`while (node->next)`, so the last node of a bucket is never compared: on a
table whose only node holds key 5, inserting key 5 again with
overwrite = false appends a duplicate node and returns it (non-NULL), and
count grows to 2, while the claim demands a NULL return with count
unchanged. -/
theorem hash_insert_duplicate_at_tail_appends :
    exT1.table = [[(5, 10)]] ∧ exT1.count = 1 ∧
    (hash_insert exT1 5 20 false).1 = some () ∧
    (hash_insert exT1 5 20 false).2.count = 2 ∧
    (hash_insert exT1 5 20 false).2.table = [[(5, 10), (5, 20)]] := by
  refine ⟨rfl, rfl, rfl, rfl, rfl⟩

/-- Claim C5: whenever ixfr_create_perform returns failure the store
session is never committed — it was either never started (spool open or
header failure) or freed without commit (walk failure) — so no partial
IXFR is observable. -/
theorem perform_failure_not_committed (cr : IxfrCreate) (sp : List Nat)
    (z : Zone) (h : (ixfr_create_perform cr sp z).ok = false) :
    (ixfr_create_perform cr sp z).fate ≠ StoreFate.committed ∧
    (ixfr_create_perform cr sp z).store = none := by
  rcases hh : read_spool_header sp cr with _ | sp1
  · simp [ixfr_create_perform, hh]
  · rcases hw : ixfr_create_walk_zone sp1 z with _ | ⟨st, rest⟩
    · simp [ixfr_create_perform, hh, hw]
    · simp [ixfr_create_perform, hh, hw] at h

/-- Witness for the C5 theorem: the empty spool fails the header read and
perform reports failure with the session never started. -/
theorem perform_failure_not_committed_witness :
    (ixfr_create_perform ⟨[0], 1⟩ [] exNewZone).fate ≠ StoreFate.committed ∧
    (ixfr_create_perform ⟨[0], 1⟩ [] exNewZone).store = none :=
  perform_failure_not_committed ⟨[0], 1⟩ [] exNewZone rfl

/-- Claim C6, counterexample.  For an owner whose single in-zone RR-set
has zero RRs, the emitted `u32 rrset_count` is 1 (domain_count_rrsets
counts RR-sets by zone only) but spool_rrset emits nothing for it, so the
owner's dname and count are followed immediately by the end delimiter —
zero blocks, refuting the claim that the count equals the number of
emitted blocks including the zero-RR case. -/
theorem spool_count_vs_blocks_counterexample :
    domain_count_rrsets exDom6 = 1 ∧
    spool_rrsets exDom6.rrsets = some [] ∧
    spool_domains exZone6 =
      some ([3, 0, 1, 97, 0] ++ spool_u32 1 ++ spool_u16 0) := by
  refine ⟨rfl, rfl, rfl⟩

set_option maxRecDepth 8192 in
/-- Claim C7, counterexample.  The reader's buffer holds
`MAXDOMAINLEN + 1 = 256` octets and read_spool_dname only rejects lengths
above the buffer size, so a length field of 256 — which exceeds 255 — is
read successfully; and a spool whose trailing owner (processed by
process_spool_remaining, which never parses the name) carries a 256-octet
name makes the whole diff complete successfully instead of aborting. -/
theorem read_spool_dname_len256_accepted :
    read_spool_dname (MAXDOMAINLEN + 1)
        ([0, 1] ++ List.replicate 256 65 ++ [9]) =
      some (List.replicate 256 65, [9]) ∧
    ixfr_create_perform ⟨[0], 1⟩ exSpool7 exOldZone =
      ⟨true, StoreFate.destroyed, some emptyStore⟩ := by
  refine ⟨rfl, rfl⟩

/-- Claim C7 as amended: a dname length field exceeding the reader's
buffer of `MAXDOMAINLEN + 1` octets makes read_spool_dname fail, and a
spool whose apex length field exceeds it makes ixfr_create_perform fail
before the store session is started. -/
theorem read_spool_dname_overlong_fails (b0 b1 : Nat) (rest : List Nat)
    (cr : IxfrCreate) (z : Zone) (h : MAXDOMAINLEN + 1 < b0 + 256 * b1) :
    read_spool_dname (MAXDOMAINLEN + 1) (b0 :: b1 :: rest) = none ∧
    ixfr_create_perform cr (b0 :: b1 :: rest) z =
      ⟨false, StoreFate.notStarted, none⟩ := by
  have hd : read_spool_dname (MAXDOMAINLEN + 1) (b0 :: b1 :: rest) = none := by
    simp [read_spool_dname, read_spool_u16, if_pos h]
  refine ⟨hd, ?_⟩
  unfold ixfr_create_perform read_spool_header
  rw [hd]

/-- Witness for the amended C7 theorem at length field 257. -/
theorem read_spool_dname_overlong_fails_witness :
    read_spool_dname (MAXDOMAINLEN + 1) [1, 1, 9] = none ∧
    ixfr_create_perform ⟨[0], 1⟩ [1, 1, 9] exNewZone =
      ⟨false, StoreFate.notStarted, none⟩ :=
  read_spool_dname_overlong_fails 1 1 [9] ⟨[0], 1⟩ exNewZone (by decide)

/-- Claim C9: ixfr_create_perform reads the header first; whenever the
spool's apex bytes differ from the context's zone name or its serial
differs from the context's old serial, it fails with the session never
started and nothing emitted — before any diff processing. -/
theorem perform_header_mismatch_fails (cr : IxfrCreate) (z : Zone)
    (sp sp1 sp2 nm : List Nat) (serial : Nat)
    (h1 : read_spool_dname (MAXDOMAINLEN + 1) sp = some (nm, sp1))
    (h2 : read_spool_u32 sp1 = some (serial, sp2))
    (h3 : nm ≠ cr.zone_name ∨ serial ≠ cr.old_serial) :
    ixfr_create_perform cr sp z = ⟨false, StoreFate.notStarted, none⟩ := by
  have hh : read_spool_header sp cr = none := by
    by_cases hc : cr.zone_name = nm
    · have hs : cr.old_serial ≠ serial := by
        rcases h3 with h3 | h3
        · exact absurd hc.symm h3
        · exact fun he => h3 he.symm
      simp [read_spool_header, h1, h2, hc, hs]
    · simp [read_spool_header, h1, h2, hc]
  simp [ixfr_create_perform, hh]

/-- Witness for the C9 theorem: a spool with the right apex but serial 9
against a context expecting serial 5. -/
theorem perform_header_mismatch_fails_witness :
    ixfr_create_perform ⟨[0], 5⟩ [1, 0, 0, 9, 0, 0, 0] exNewZone =
      ⟨false, StoreFate.notStarted, none⟩ :=
  perform_header_mismatch_fails ⟨[0], 5⟩ exNewZone [1, 0, 0, 9, 0, 0, 0]
    [9, 0, 0, 0] [] [0] 9 rfl rfl (Or.inr (by decide))

/-- Claim C10: the spool dname iterator returns success immediately and
changes nothing once `eof` is set; while the buffered name is unprocessed
it returns it again without reading; and reading the zero-length end
delimiter sets `eof` (which case 1 then keeps set forever). -/
theorem spool_dname_iter_next_protocol (it : SpoolIter) (sp rest : List Nat) :
    (it.eof = true → spool_dname_iter_next it sp = some (it, sp)) ∧
    (it.eof = false → it.read_first = true → it.is_processed = false →
      spool_dname_iter_next it sp = some (it, sp)) ∧
    (it.eof = false → (it.read_first = false ∨ it.is_processed = true) →
      spool_dname_iter_next it ([0, 0] ++ rest) =
        some (⟨[], true, true, false⟩, rest)) := by
  refine ⟨?_, ?_, ?_⟩
  · intro he
    simp [spool_dname_iter_next, he]
  · intro he hr hp
    simp [spool_dname_iter_next, he, hr, hp]
  · intro he hcase
    have hread : spool_dname_iter_read it (0 :: 0 :: rest) =
        some ({ it with dname := [] }, rest) := by
      simp [spool_dname_iter_read, read_spool_dname, read_spool_u16]
    rcases hcase with hr | hp
    · simp [spool_dname_iter_next, he, hr, hread]
    · by_cases hr : it.read_first
      · simp [spool_dname_iter_next, he, hr, hp, hread]
      · simp [spool_dname_iter_next, he, hr, hread]

/-- Witness for the C10 theorem: an unprocessed buffered name is returned
again untouched. -/
theorem spool_dname_iter_next_protocol_witness :
    spool_dname_iter_next ⟨[1, 0], true, false, false⟩ [5] =
      some (⟨[1, 0], true, false, false⟩, [5]) :=
  (spool_dname_iter_next_protocol ⟨[1, 0], true, false, false⟩ [5] []).2.1
    rfl rfl rfl

/-! ## Writer equivalences -/

theorem spool_atoms_eq (l : List Atom) (h : ∀ a ∈ l, atomBytes a ≠ []) :
    spool_atoms l = some ((l.map atomBytes).flatten) := by
  induction l with
  | nil => rfl
  | cons a rest ih =>
    have ha : (atomBytes a).isEmpty = false := by
      rcases hc : atomBytes a with _ | ⟨x, xs⟩
      · exact absurd hc (h a (by simp))
      · rfl
    simp [spool_atoms, ha, ih (fun x hx => h x (List.mem_cons_of_mem a hx))]

theorem spool_rr_data_eq (rr : RR) (h : ∀ a ∈ rr.rdatas, atomBytes a ≠ []) :
    spool_rr_data rr = some (rr_data_bytes rr) := by
  simp [spool_rr_data, spool_atoms_eq rr.rdatas h, rr_data_bytes, rdatas_wire]

theorem spool_rrs_data_eq (rrs : List RR)
    (h : ∀ r ∈ rrs, ∀ a ∈ r.rdatas, atomBytes a ≠ []) :
    spool_rrs_data rrs = some ((rrs.map rr_data_bytes).flatten) := by
  induction rrs with
  | nil => rfl
  | cons r rest ih =>
    simp [spool_rrs_data, spool_rr_data_eq r (h r (by simp)),
      ih (fun x hx => h x (List.mem_cons_of_mem r hx))]

theorem spool_rrset_eq (s : RRset)
    (h : ∀ r ∈ s.rrs, ∀ a ∈ r.rdatas, atomBytes a ≠ []) :
    spool_rrset s = some (rrset_block_bytes s) := by
  rcases hs : s.rrs with _ | ⟨r0, rest⟩
  · simp [spool_rrset, rrset_block_bytes, hs]
  · have hd := spool_rrs_data_eq s.rrs h
    simp [spool_rrset, rrset_block_bytes, hs, hs ▸ hd]

theorem spool_rrsets_eq (rs : List RRset)
    (h : ∀ s ∈ rs, s.inzone = true → ∀ r ∈ s.rrs, ∀ a ∈ r.rdatas, atomBytes a ≠ []) :
    spool_rrsets rs =
      some (((rs.filter (fun s => s.inzone)).map rrset_block_bytes).flatten) := by
  induction rs with
  | nil => rfl
  | cons s rest ih =>
    have ih2 := ih (fun x hx hz => h x (List.mem_cons_of_mem s hx) hz)
    by_cases hz : s.inzone
    · simp [spool_rrsets, hz, spool_rrset_eq s (h s (by simp) hz), ih2,
        List.filter_cons_of_pos]
    · simp [spool_rrsets, hz, ih2, List.filter_cons_of_neg]

/-- Claim C6 as amended: the emitted u32 equals the number of RR-sets of
the owner belonging to the zone, and the bytes that follow are exactly
one block per such RR-set with at least one RR; under the data model's
zones — no empty RR-set — this makes the count equal the number of
emitted blocks, each of them non-empty. -/
theorem spool_rrsets_blocks (d : Domain)
    (h : ∀ s ∈ d.rrsets, s.inzone = true →
      s.rrs ≠ [] ∧ ∀ r ∈ s.rrs, ∀ a ∈ r.rdatas, atomBytes a ≠ []) :
    spool_rrsets d.rrsets =
      some (((d.rrsets.filter (fun s => s.inzone)).map rrset_block_bytes).flatten) ∧
    domain_count_rrsets d =
      ((d.rrsets.filter (fun s => s.inzone)).map rrset_block_bytes).length ∧
    ∀ b ∈ (d.rrsets.filter (fun s => s.inzone)).map rrset_block_bytes, b ≠ [] := by
  refine ⟨spool_rrsets_eq d.rrsets (fun s hs hz => (h s hs hz).2), ?_, ?_⟩
  · simp [domain_count_rrsets]
  · intro b hb
    rcases List.mem_map.mp hb with ⟨s, hs, hbs⟩
    rcases List.mem_filter.mp hs with ⟨hmem, hz⟩
    have hne := (h s hmem (by simpa using hz)).1
    rcases hrr : s.rrs with _ | ⟨r0, rest⟩
    · exact absurd hrr hne
    · rw [← hbs]
      simp [rrset_block_bytes, hrr, spool_u16]

/-- Witness for the amended C6 theorem: an owner with one in-zone RR-set
of one RR. -/
def exDom6w : Domain := ⟨[1, 97, 0], [⟨true, [⟨1, 1, 300, [.araw [1, 2, 3, 4]]⟩]⟩]⟩

theorem spool_rrsets_blocks_witness :
    spool_rrsets exDom6w.rrsets =
      some (((exDom6w.rrsets.filter (fun s => s.inzone)).map rrset_block_bytes).flatten) ∧
    domain_count_rrsets exDom6w =
      ((exDom6w.rrsets.filter (fun s => s.inzone)).map rrset_block_bytes).length ∧
    ∀ b ∈ (exDom6w.rrsets.filter (fun s => s.inzone)).map rrset_block_bytes, b ≠ [] :=
  spool_rrsets_blocks exDom6w (by decide)

/-! ## Reader/writer roundtrip at each layer of the spool grammar -/

theorem read_spool_u16_roundtrip (v : Nat) (r : List Nat) (h : v < 65536) :
    read_spool_u16 (spool_u16 v ++ r) = some (v, r) := by
  simp [spool_u16, read_spool_u16]
  omega

theorem read_spool_u32_roundtrip (v : Nat) (r : List Nat)
    (h : v < 4294967296) :
    read_spool_u32 (spool_u32 v ++ r) = some (v, r) := by
  simp [spool_u32, read_spool_u32]
  omega

theorem fread_bytes_exact (l r : List Nat) (h : l ≠ []) :
    fread_bytes l.length (l ++ r) = some (l, r) := by
  have h0 : l.length ≠ 0 := by simpa using h
  have h1 : ¬((l ++ r).length < l.length) := by
    simp [List.length_append]
  rw [fread_bytes, if_neg h0, if_neg h1, List.take_left, List.drop_left]

theorem spool_dname_eq (nm : List Nat) (h : nm ≠ []) :
    spool_dname nm = some (spool_u16 nm.length ++ nm) := by
  simp [spool_dname, h]

theorem read_spool_dname_roundtrip (nm r : List Nat) (h1 : nm ≠ [])
    (h2 : nm.length ≤ MAXDOMAINLEN) :
    read_spool_dname (MAXDOMAINLEN + 1) (spool_u16 nm.length ++ (nm ++ r)) =
      some (nm, r) := by
  have hlen : nm.length < 65536 := by
    unfold MAXDOMAINLEN at h2; omega
  have hbuf : ¬(MAXDOMAINLEN + 1 < nm.length) := by
    unfold MAXDOMAINLEN at h2 ⊢; omega
  have hpos : 0 < nm.length := List.length_pos.mpr h1
  rw [read_spool_dname, read_spool_u16_roundtrip nm.length (nm ++ r) hlen]
  dsimp only
  rw [if_neg hbuf, if_pos hpos, fread_bytes_exact nm r h1]

theorem rdatas_wire_length (rr : RR) :
    (rdatas_wire rr.rdatas).length = rr_rdatalen_uncompressed rr := by
  simp only [rdatas_wire, rr_rdatalen_uncompressed, List.length_flatten,
    List.map_map]
  rfl

theorem rdatas_wire_ne_nil (l : List Atom) (h0 : l ≠ [])
    (h : ∀ a ∈ l, atomBytes a ≠ []) : rdatas_wire l ≠ [] := by
  rcases l with _ | ⟨a, rest⟩
  · exact absurd rfl h0
  · have ha := h a (by simp)
    simp [rdatas_wire]
    intro hab
    exact absurd hab ha

theorem read_spool_rrdata_roundtrip (rr : RR) (r : List Nat)
    (httl : rr.ttl < 4294967296)
    (hlen : rr_rdatalen_uncompressed rr < 65536)
    (hne : rr.rdatas ≠ [])
    (hatoms : ∀ a ∈ rr.rdatas, atomBytes a ≠ []) :
    read_spool_rrdata (rr_data_bytes rr ++ r) =
      some ((rr.ttl, rdatas_wire rr.rdatas), r) := by
  have hw := rdatas_wire_length rr
  have hwne := rdatas_wire_ne_nil rr.rdatas hne hatoms
  rw [rr_data_bytes, read_spool_rrdata, List.append_assoc, List.append_assoc,
    read_spool_u32_roundtrip rr.ttl _ httl]
  dsimp only
  rw [read_spool_u16_roundtrip (rr_rdatalen_uncompressed rr) _ hlen]
  dsimp only
  rw [← hw, fread_bytes_exact (rdatas_wire rr.rdatas) r hwne]

theorem read_spool_rrs_roundtrip (rrs : List RR) (r : List Nat)
    (h : ∀ rr ∈ rrs, rr.ttl < 4294967296 ∧
      rr_rdatalen_uncompressed rr < 65536 ∧ rr.rdatas ≠ [] ∧
      ∀ a ∈ rr.rdatas, atomBytes a ≠ []) :
    read_spool_rrs rrs.length ((rrs.map rr_data_bytes).flatten ++ r) =
      some (rrs.map (fun rr => (rr.ttl, rdatas_wire rr.rdatas)), r) := by
  induction rrs with
  | nil => rfl
  | cons rr rest ih =>
    obtain ⟨httl, hlen, hne, hatoms⟩ := h rr (by simp)
    have ih2 := ih (fun x hx => h x (List.mem_cons_of_mem rr hx))
    simp only [List.map_cons, List.flatten_cons, List.length_cons,
      List.append_assoc, read_spool_rrs]
    rw [read_spool_rrdata_roundtrip rr _ httl hlen hne hatoms]
    dsimp only
    rw [ih2]

theorem read_spool_block_roundtrip (s : RRset) (r : List Nat)
    (h : rrset_wf s) :
    read_spool_block (rrset_block_bytes s ++ r) =
      some ((rrset_rrtype s, rrset_klass s,
        s.rrs.map (fun rr => (rr.ttl, rdatas_wire rr.rdatas))), r) := by
  obtain ⟨hne, hcnt, hrr⟩ := h
  rcases hs : s.rrs with _ | ⟨r0, rest⟩
  · exact absurd hs hne
  · have h0 := hrr r0 (by rw [hs]; simp)
    have htp : r0.type < 65536 := h0.2.2.1
    have hkl : r0.klass < 65536 := h0.2.2.2.1
    have htp2 : rrset_rrtype s = r0.type := by simp [rrset_rrtype, hs]
    have hkl2 : rrset_klass s = r0.klass := by simp [rrset_klass, hs]
    have hlen : s.rrs.length < 65536 := hcnt
    rw [rrset_block_bytes]
    rw [hs]
    dsimp only
    rw [read_spool_block]
    simp only [List.append_assoc]
    rw [read_spool_u16_roundtrip r0.type _ htp]
    dsimp only
    rw [read_spool_u16_roundtrip r0.klass _ hkl]
    dsimp only
    rw [read_spool_u16_roundtrip (r0 :: rest).length _ (hs ▸ hlen)]
    dsimp only
    have hrrs : ∀ rr ∈ (r0 :: rest), rr.ttl < 4294967296 ∧
        rr_rdatalen_uncompressed rr < 65536 ∧ rr.rdatas ≠ [] ∧
        ∀ a ∈ rr.rdatas, atomBytes a ≠ [] := by
      intro rr hm
      have hx := hrr rr (by rw [hs]; exact hm)
      exact ⟨hx.2.2.2.2.1, hx.2.2.2.2.2.1, hx.2.2.2.2.2.2.1, hx.2.2.2.2.2.2.2⟩
    rw [read_spool_rrs_roundtrip (r0 :: rest) r hrrs]
    dsimp only
    rw [htp2, hkl2]

theorem read_spool_blocks_roundtrip (fs : List RRset) (r : List Nat)
    (h : ∀ s ∈ fs, rrset_wf s) :
    read_spool_blocks fs.length ((fs.map rrset_block_bytes).flatten ++ r) =
      some (fs.map (fun s => (rrset_rrtype s, rrset_klass s,
        s.rrs.map (fun rr => (rr.ttl, rdatas_wire rr.rdatas)))), r) := by
  induction fs with
  | nil => rfl
  | cons s rest ih =>
    have ih2 := ih (fun x hx => h x (List.mem_cons_of_mem s hx))
    simp only [List.map_cons, List.flatten_cons, List.length_cons,
      List.append_assoc, read_spool_blocks]
    rw [read_spool_block_roundtrip s _ (h s (by simp))]
    dsimp only
    rw [ih2]

theorem flatMap_map_eq {α β γ : Type} (f : α → β) (g : β → List γ)
    (l : List α) : (l.map f).flatMap g = l.flatMap (fun x => g (f x)) := by
  induction l with
  | nil => rfl
  | cons a rest ih => simp [ih]

theorem flatMap_congr {α β : Type} (l : List α) (f g : α → List β)
    (h : ∀ a ∈ l, f a = g a) : l.flatMap f = l.flatMap g := by
  induction l with
  | nil => rfl
  | cons a rest ih =>
    simp only [List.flatMap_cons]
    rw [h a (by simp), ih (fun x hx => h x (List.mem_cons_of_mem a hx))]

/-- The (owner, type, class, ttl, rdata) tuples of a domain list, in
emission order. -/
def domains_tuples (ds : List Domain) : List SpoolRR :=
  ds.flatMap (fun d =>
    (d.rrsets.filter (fun s => s.inzone)).flatMap (fun s =>
      s.rrs.map (fun r =>
        (d.name, r.type, r.klass, r.ttl, rdatas_wire r.rdatas))))

theorem owner_tuples_eq (d : Domain)
    (hds : ∀ s ∈ d.rrsets, s.inzone = true → rrset_wf s) :
    ((d.rrsets.filter (fun s => s.inzone)).map
        (fun s => (rrset_rrtype s, rrset_klass s,
          s.rrs.map (fun rr => (rr.ttl, rdatas_wire rr.rdatas))))).flatMap
      (fun b => b.2.2.map (fun p => (d.name, b.1, b.2.1, p.1, p.2))) =
    (d.rrsets.filter (fun s => s.inzone)).flatMap (fun s =>
      s.rrs.map (fun r =>
        (d.name, r.type, r.klass, r.ttl, rdatas_wire r.rdatas))) := by
  rw [flatMap_map_eq]
  refine flatMap_congr _ _ _ ?_
  intro s hs
  dsimp only
  rw [List.map_map]
  refine List.map_congr_left ?_
  intro x hx
  have hxw := (hds s (List.mem_of_mem_filter hs)
    ((List.mem_filter.mp hs).2)).2.2 x hx
  simp [Function.comp, hxw.1, hxw.2.1]

theorem read_spool_owners_roundtrip (ds : List Domain)
    (h : ∀ d ∈ ds, domain_wf d) :
    ∃ w, spool_domains_loop ds = some w ∧
      ∀ r fuel, w.length + 1 ≤ fuel →
        read_spool_owners fuel (w ++ ([0, 0] ++ r)) =
          some (domains_tuples ds, r) := by
  induction ds with
  | nil =>
    refine ⟨[], rfl, ?_⟩
    intro r fuel hf
    rcases fuel with _ | f
    · omega
    · simp [read_spool_owners, read_spool_dname, read_spool_u16,
        domains_tuples]
  | cons d ds ih =>
    obtain ⟨hdn, hdl, hdc, hds⟩ := h d (by simp)
    obtain ⟨w2, hw2, hread2⟩ := ih (fun x hx => h x (List.mem_cons_of_mem d hx))
    have hatoms : ∀ s ∈ d.rrsets, s.inzone = true →
        ∀ x ∈ s.rrs, ∀ a ∈ x.rdatas, atomBytes a ≠ [] :=
      fun s hs hz x hx a ha => ((hds s hs hz).2.2 x hx).2.2.2.2.2.2.2 a ha
    have hrsets := spool_rrsets_eq d.rrsets hatoms
    by_cases hc : domain_count_rrsets d = 0
    · have hfil : d.rrsets.filter (fun s => s.inzone) = [] :=
        List.length_eq_zero.mp hc
      refine ⟨w2, by simp [spool_domains_loop, hc, hw2], ?_⟩
      intro r fuel hf
      rw [show domains_tuples (d :: ds) = domains_tuples ds from by
        simp [domains_tuples, hfil]]
      exact hread2 r fuel hf
    · refine ⟨spool_u16 d.name.length ++ (d.name ++
        (spool_u32 (domain_count_rrsets d) ++
          (((d.rrsets.filter (fun s => s.inzone)).map rrset_block_bytes).flatten
            ++ w2))), ?_, ?_⟩
      · simp [spool_domains_loop, hc, spool_dname_eq d.name hdn, hrsets, hw2,
          List.append_assoc]
      · intro r fuel hf
        rcases fuel with _ | f
        · omega
        · have hf2 : w2.length + 1 ≤ f := by
            simp only [List.length_append, spool_u16, spool_u32,
              List.length_cons, List.length_nil] at hf
            omega
          rw [read_spool_owners]
          simp only [List.append_assoc]
          rw [read_spool_dname_roundtrip d.name _ hdn hdl]
          dsimp only
          have hie : d.name.isEmpty = false := by
            rcases hnm : d.name with _ | ⟨x, xs⟩
            · exact absurd hnm hdn
            · rfl
          rw [hie]
          simp only [Bool.false_eq_true, if_false]
          rw [read_spool_u32_roundtrip (domain_count_rrsets d) _ hdc]
          dsimp only
          rw [show domain_count_rrsets d =
            (d.rrsets.filter (fun s => s.inzone)).length from rfl]
          have hwf : ∀ s ∈ d.rrsets.filter (fun s => s.inzone), rrset_wf s :=
            fun s hs => hds s (List.mem_of_mem_filter hs)
              ((List.mem_filter.mp hs).2)
          rw [read_spool_blocks_roundtrip _ _ hwf]
          dsimp only
          rw [hread2 r f hf2]
          dsimp only
          simp only [domains_tuples, List.flatMap_cons]
          rw [owner_tuples_eq d hds]

/-- Claim C2: writing a zone to the spool and reading the spool back with
the source's readers reproduces the apex, the serial, and the
(owner, type, class, ttl, uncompressed rdata) tuple of every RR belonging
to the zone, in emission order, consuming the file exactly. -/
theorem spool_write_read_roundtrip (z : Zone) (serial : Nat)
    (h : spool_wf z serial) :
    (spool_zone_to_file z serial).bind read_spool_zone =
      some (z.apexName, serial, zone_rr_tuples z, []) := by
  obtain ⟨han, hal, hser, hds⟩ := h
  obtain ⟨w, hw, hread⟩ := read_spool_owners_roundtrip z.domains hds
  rw [spool_zone_to_file, spool_dname_eq z.apexName han, spool_domains, hw]
  dsimp only
  rw [Option.some_bind]
  rw [read_spool_zone]
  simp only [List.append_assoc]
  rw [read_spool_dname_roundtrip z.apexName _ han hal]
  dsimp only
  rw [read_spool_u32_roundtrip serial _ hser]
  dsimp only
  rw [show (spool_u16 0 : List Nat) = [0, 0] from rfl]
  have hb : w.length + 1 ≤
      (spool_u16 z.apexName.length ++
        (z.apexName ++ (spool_u32 serial ++ (w ++ [0, 0])))).length + 1 := by
    simp [List.length_append, spool_u16, spool_u32]
    omega
  have hre := hread []
    ((spool_u16 z.apexName.length ++
      (z.apexName ++ (spool_u32 serial ++ (w ++ [0, 0])))).length + 1) hb
  rw [List.append_nil] at hre
  rw [hre]
  rfl

/-- Witness zone for the C2 theorem: two owners, one RR-set of another
zone interleaved, domain and opaque atoms. -/
def exZone2 : Zone :=
  ⟨[1, 97, 0],
   [⟨[1, 97, 0], [⟨true, [⟨1, 1, 300, [.araw [1, 2, 3, 4]]⟩]⟩]⟩,
    ⟨[1, 98, 1, 97, 0],
     [⟨false, [⟨2, 1, 60, [.adomain [0]]⟩]⟩,
      ⟨true, [⟨2, 1, 60, [.adomain [1, 99, 0]]⟩,
              ⟨2, 1, 60, [.araw [7, 8]]⟩]⟩]⟩]⟩

/-- Witness for the C2 theorem at exZone2 with serial 7. -/
theorem spool_write_read_roundtrip_witness :
    (spool_zone_to_file exZone2 7).bind read_spool_zone =
      some (exZone2.apexName, 7, zone_rr_tuples exZone2, []) :=
  spool_write_read_roundtrip exZone2 7
    (by simp only [spool_wf, domain_wf, rrset_wf]; decide)

/-! ## Hash-table iteration: first/next visits every node exactly once -/

/-- The node positions of buckets `i` and above, in scan order. -/
def posFrom {K V : Type} (h : Hash K V) (i : Nat) : List (Nat × Nat) :=
  (List.range' i (h.size - i)).flatMap
    (fun k => (List.range (h.table.getD k []).length).map (fun j => (k, j)))

theorem posFrom_stop {K V : Type} (h : Hash K V) (i : Nat)
    (hi : h.size ≤ i) : posFrom h i = [] := by
  simp [posFrom, Nat.sub_eq_zero_of_le hi]

theorem posFrom_step {K V : Type} (h : Hash K V) (i : Nat)
    (hi : i < h.size) :
    posFrom h i =
      (List.range (h.table.getD i []).length).map (fun j => (i, j)) ++
        posFrom h (i + 1) := by
  have hs : h.size - i = (h.size - (i + 1)) + 1 := by omega
  rw [posFrom, hs, List.range'_succ, List.flatMap_cons, posFrom]

theorem posFrom_length_step {K V : Type} (h : Hash K V) (i : Nat)
    (hi : i < h.size) :
    (posFrom h i).length =
      (h.table.getD i []).length + (posFrom h (i + 1)).length := by
  rw [posFrom_step h i hi]
  simp

theorem iterGo_none {K V : Type} (h : Hash K V) (fuel : Nat) :
    iterGo h fuel none = [] := by
  cases fuel <;> rfl

theorem iterGo_scanFrom {K V : Type} (h : Hash K V) :
    ∀ n i fuel, h.size - i ≤ n → (posFrom h i).length < fuel →
      iterGo h fuel (scanFrom h i) = posFrom h i := by
  intro n
  induction n with
  | zero =>
    intro i fuel hn _
    have hi : h.size ≤ i := by omega
    rw [scanFrom, dif_neg (by omega), iterGo_none, posFrom_stop h i hi]
  | succ n ih =>
    intro i fuel hn hf
    by_cases hi : i < h.size
    · have hchain : ∀ m j fuelc, j < (h.table.getD i []).length →
          (h.table.getD i []).length - j ≤ m →
          ((h.table.getD i []).length - j) + (posFrom h (i + 1)).length < fuelc →
          iterGo h fuelc (some (i, j)) =
            (List.range' j ((h.table.getD i []).length - j)).map
              (fun t => (i, t)) ++ posFrom h (i + 1) := by
        intro m
        induction m with
        | zero => intro j fuelc hj hm _; omega
        | succ m ihm =>
          intro j fuelc hj hm hfc
          rcases fuelc with _ | fc
          · omega
          · rw [iterGo]
            by_cases hnext : j + 1 < (h.table.getD i []).length
            · rw [hash_next, if_pos hnext]
              rw [ihm (j + 1) fc hnext (by omega) (by omega)]
              have hr : (h.table.getD i []).length - j =
                  ((h.table.getD i []).length - (j + 1)) + 1 := by omega
              rw [hr, List.range'_succ]
              simp
            · have hj1 : j + 1 = (h.table.getD i []).length := by omega
              rw [hash_next, if_neg hnext]
              rw [ih (i + 1) fc (by omega) (by omega)]
              have hr : (h.table.getD i []).length - j = 1 := by omega
              rw [hr]
              simp
      rcases hbkt : h.table.getD i [] with _ | ⟨p, rest⟩
      · rw [scanFrom, dif_pos hi, hbkt]
        have hlen0 : (h.table.getD i []).length = 0 := by rw [hbkt]; rfl
        rw [posFrom_step h i hi, hlen0]
        simp only [List.range_zero, List.map_nil, List.nil_append]
        exact ih (i + 1) fuel (by omega)
          (by rw [posFrom_length_step h i hi, hlen0] at hf; omega)
      · rw [scanFrom, dif_pos hi, hbkt]
        have hlen : 0 < (h.table.getD i []).length := by rw [hbkt]; simp
        have hlsplit := posFrom_length_step h i hi
        rw [hchain (h.table.getD i []).length 0 fuel hlen (by omega)
          (by omega)]
        rw [posFrom_step h i hi]
        simp [List.range_eq_range']
    · have hi2 : h.size ≤ i := by omega
      rw [scanFrom, dif_neg (by omega), iterGo_none, posFrom_stop h i hi2]

theorem allPositions_eq_posFrom {K V : Type} (h : Hash K V) :
    allPositions h = posFrom h 0 := by
  simp [allPositions, posFrom, List.range_eq_range']

theorem sum_getD_lengths {α : Type} :
    ∀ t : List (List α),
      ((List.range t.length).map (fun i => (t.getD i []).length)).sum =
        (t.map List.length).sum := by
  intro t
  induction t with
  | nil => rfl
  | cons x rest ih =>
    rw [List.length_cons, List.range_succ_eq_map]
    simp only [List.map_cons, List.map_map, List.sum_cons]
    have : (List.range rest.length).map
        ((fun i => ((x :: rest).getD i []).length) ∘ Nat.succ) =
        (List.range rest.length).map (fun i => (rest.getD i []).length) := by
      refine List.map_congr_left ?_
      intro a _
      rfl
    rw [this, ih]
    rfl

theorem posFrom_fst_ge {K V : Type} (h : Hash K V) (i : Nat) :
    ∀ p ∈ posFrom h i, i ≤ p.1 := by
  intro p hp
  rw [posFrom] at hp
  rcases List.mem_flatMap.mp hp with ⟨k, hk, hpk⟩
  rcases List.mem_map.mp hpk with ⟨j, _, hj⟩
  have := (List.mem_range'_1.mp hk).1
  rw [← hj]
  exact this

theorem posFrom_nodup {K V : Type} (h : Hash K V) :
    ∀ n i, h.size - i ≤ n → (posFrom h i).Nodup := by
  intro n
  induction n with
  | zero =>
    intro i hn
    rw [posFrom_stop h i (by omega)]
    exact List.nodup_nil
  | succ n ih =>
    intro i hn
    by_cases hi : i < h.size
    · rw [posFrom_step h i hi]
      refine List.Nodup.append ?_ (ih (i + 1) (by omega)) ?_
      · exact (List.nodup_range _).map
          (fun a b hab => by simpa using congrArg Prod.snd hab)
      · intro p hp1 hp2
        rcases List.mem_map.mp hp1 with ⟨j, _, hj⟩
        have hge := posFrom_fst_ge h (i + 1) p hp2
        rw [← hj] at hge
        omega
    · rw [posFrom_stop h i (by omega)]
      exact List.nodup_nil

/-- Well-formed table: the recorded size is the bucket count and `count`
is the number of occupied nodes. -/
def hash_wf {K V : Type} (h : Hash K V) : Prop :=
  h.size = h.table.length ∧ h.count = (h.table.map List.length).sum

/-- Claim C8: iterating with hash_first then hash_next until NULL visits
exactly the occupied node positions, each exactly once, and the number of
visits equals the table's count. -/
theorem hash_iteration_visits_all {K V : Type} (h : Hash K V)
    (hwf : hash_wf h) (fuel : Nat) (hf : h.count + 1 ≤ fuel) :
    iterGo h fuel (hash_first h) = allPositions h ∧
    (allPositions h).Nodup ∧ (allPositions h).length = h.count := by
  obtain ⟨hsz, hcnt⟩ := hwf
  have hlen : (allPositions h).length = h.count := by
    rw [allPositions]
    rw [hcnt, hsz]
    have : ((List.range h.table.length).flatMap (fun i =>
        (List.range (h.table.getD i []).length).map (fun j => (i, j)))).length =
        ((List.range h.table.length).map
          (fun i => (h.table.getD i []).length)).sum := by
      rw [List.length_flatMap]
      congr 1
      refine List.map_congr_left ?_
      intro a _
      simp
    rw [this, sum_getD_lengths]
  refine ⟨?_, ?_, hlen⟩
  · rw [hash_first, allPositions_eq_posFrom]
    refine iterGo_scanFrom h h.size 0 fuel (by omega) ?_
    rw [← allPositions_eq_posFrom, hlen]
    omega
  · rw [allPositions_eq_posFrom]
    exact posFrom_nodup h h.size 0 (by omega)

/-- Witness for the C8 theorem: the three-bucket table exH with three
nodes, iterated with fuel 4. -/
theorem hash_iteration_visits_all_witness :
    iterGo exH 4 (hash_first exH) = allPositions exH ∧
    (allPositions exH).Nodup ∧ (allPositions exH).length = exH.count :=
  hash_iteration_visits_all exH ⟨rfl, rfl⟩ 4 (by decide)
